import Mathlib

/-!
Shallow embedding of the akita data-access layer's mapping facade
(`src/fuse.rs`) together with the value model and descriptor metadata it
consumes, and proofs checking the specification's claims against it.

Entities are represented by their serialized field mapping (an ordered
list of column-name/value pairs), mirroring how `fuse.rs` only ever
consumes `entity.to_value()` through `get_obj_value`.  Backend execution
is modelled by an oracle (`Backend`) answering queries, and each facade
operation additionally returns the ordered trace of connection
acquisitions and SQL executions it performs.
-/

deriving instance DecidableEq for Except

namespace Akita

/-! ## Decimal rendering of numbers (embedding of Rust's `format!` for integers) -/

/-- The decimal digit character for `m % 10`-sized naturals. -/
def digitChar : Nat → Char
  | 0 => '0' | 1 => '1' | 2 => '2' | 3 => '3' | 4 => '4'
  | 5 => '5' | 6 => '6' | 7 => '7' | 8 => '8' | 9 => '9'
  | _ => '0'

/-- Numeric value of a digit character. -/
def digitVal (c : Char) : Nat := c.toNat - 48

/-- Fuelled decimal rendering (structural recursion, so that it computes
by kernel reduction; the fuel always suffices when it exceeds `n`). -/
def natToCharsAux : Nat → Nat → List Char
  | 0, _ => []
  | fuel + 1, n =>
      if n < 10 then [digitChar n]
      else natToCharsAux fuel (n / 10) ++ [digitChar (n % 10)]

/-- Decimal digit list of a natural number (most significant first). -/
def natToChars (n : Nat) : List Char := natToCharsAux (n + 1) n

/-- Decimal string of a natural number, as Rust's `format!("{}", n)` prints it. -/
def natStr (n : Nat) : String := ⟨natToChars n⟩

/-- Decimal string of an integer. -/
def intStr (i : Int) : String :=
  if i < 0 then "-" ++ natStr i.natAbs else natStr i.natAbs

/-! ## Joining (embedding of Rust's `Vec::join`) -/

/-- `Vec::join(sep)`. -/
def joinWith (sep : String) : List String → String
  | [] => ""
  | [s] => s
  | s :: rest => s ++ sep ++ joinWith sep rest

/-- `Vec::join(", ")`, the separator used throughout `fuse.rs`. -/
def joinComma : List String → String := joinWith ", "

/-! ## Placeholder counting -/

/-- Number of occurrences of a character in a character list. -/
def countCharL (c : Char) : List Char → Nat
  | [] => 0
  | d :: rest => (if d = c then 1 else 0) + countCharL c rest

/-- Number of occurrences of a character in a string (used to count the
un-numbered `?` placeholders of the MySQL dialect). -/
def countChar (c : Char) (s : String) : Nat := countCharL c s.data

/-- State of the `$n` placeholder scanner: outside a placeholder, right
after a `$`, or inside the digit run of a placeholder. -/
inductive ScanSt where
  | plain
  | dollar
  | num (acc : Nat)

/-- Scanner collecting, left to right, the numbers of all `$n` numbered
placeholders occurring in a character list. -/
def scanPh : List Char → ScanSt → List Nat
  | [], .num acc => [acc]
  | [], _ => []
  | c :: rest, .plain =>
      if c = '$' then scanPh rest .dollar else scanPh rest .plain
  | c :: rest, .dollar =>
      if c.isDigit then scanPh rest (.num (digitVal c))
      else if c = '$' then scanPh rest .dollar
      else scanPh rest .plain
  | c :: rest, .num acc =>
      if c.isDigit then scanPh rest (.num (acc * 10 + digitVal c))
      else if c = '$' then acc :: scanPh rest .dollar
      else acc :: scanPh rest .plain

/-- The numbers of the `$n` placeholders of a SQL string, left to right. -/
def dollarPlaceholders (s : String) : List Nat := scanPh s.data .plain

/-! ## Value model

The `Value` union lives in the external `akita_core` crate; `fuse.rs`
consumes it through `get_obj_value`, `to_string` and construction of
parameter vectors.  Scalar variants are modelled directly; an entity's
serialized object (`Value::Object`) is modelled as the ordered pair list
`Obj` since that is the only shape `fuse.rs` ever reads. -/

/-- A database-bindable scalar value. -/
inductive Value where
  | nil
  | bool (b : Bool)
  | int (i : Int)
  | uint (n : Nat)
  | text (s : String)
  deriving DecidableEq, Repr

/-- An entity's serialized field mapping: ordered column-name/value pairs. -/
abbrev Obj := List (String × Value)

/-- `Value::get_obj_value`: first value stored under a column name. -/
def getObjValue (data : Obj) (name : String) : Option Value :=
  (data.find? (fun p => p.1 = name)).map (·.2)

/-- Modelled from the spec: `Display`/stringification for `Value` lives in
`akita_core`, which is not under `src/`; §4.1 requires stringification to
be defined for every variant, used when serializing id lists for `in`
clauses (`remove_by_ids`). -/
def Value.toStr : Value → String
  | .nil => "null"
  | .bool b => if b then "true" else "false"
  | .int i => intStr i
  | .uint n => natStr n
  | .text s => s

/-- Ordered parameter list handed to the executor (`Params`). -/
inductive Params where
  | nil
  | vector (vs : List Value)
  deriving DecidableEq, Repr

/-! ## Entity descriptor metadata -/

/-- `FieldType`: identifier column (`TableId`, payload dropped — the id
generation strategy is never read by `fuse.rs`) or plain column. -/
inductive FieldType where
  | tableId
  | tableField
  deriving DecidableEq, Repr

/-- A field's `fill` rule: trigger mode (`"insert"`, `"update"`,
`"default"`) and the value it resolves to. -/
structure FillMeta where
  mode : String
  value : Option Value
  deriving DecidableEq, Repr

/-- Per-field metadata as consumed by `fuse.rs`. -/
structure FieldMeta where
  name : String
  exist : Bool
  fieldType : FieldType
  fill : Option FillMeta
  deriving DecidableEq, Repr

/-- `T::table_name()`: short name and schema-qualified complete name. -/
structure TableName where
  name : String
  complete : String
  deriving DecidableEq, Repr

/-- The identifier test used by every `find` over fields in `fuse.rs`. -/
def isId (f : FieldMeta) : Bool :=
  match f.fieldType with
  | .tableId => true
  | .tableField => false

/-! ## Errors, dialects, backend, events -/

/-- The error variants of `AkitaError` reachable from the embedded
operations (messages kept as payloads, as in the source). -/
inductive AkitaError where
  | missingTable (msg : String)
  | missingIdent (msg : String)
  | dataError (msg : String)
  | unknownDatabase (msg : String)
  | urlParseError (msg : String)
  deriving DecidableEq, Repr

/-- The two database platforms of `DatabasePlatform`. -/
inductive Platform where
  | mysql
  | sqlite
  deriving DecidableEq, Repr

/-- Observable actions of one facade call: acquiring a pooled connection
and executing a SQL statement with its ordered parameters. -/
inductive Event where
  | acquire
  | exec (sql : String) (params : Params)
  deriving DecidableEq, Repr

/-- The backend oracle: rows answered for each query, and the
`affected_rows` counter. -/
structure Backend where
  query : String → Params → List Obj
  affected : Nat

/-- Connection acquisitions in a trace. -/
def acquireCount (tr : List Event) : Nat :=
  (tr.filter (fun e => match e with | .acquire => true | _ => false)).length

/-- The executed statements of a trace, with their parameters. -/
def execEvents (tr : List Event) : List (String × Params) :=
  tr.filterMap (fun e => match e with | .exec s p => some (s, p) | _ => none)

/-! ## Condition builder (`Wrapper`)

Modelled from the spec: the `Wrapper` module is not under `src/` (only its
callers in `fuse.rs` are).  §4.2 and the §8 example fix its behaviour: each
guarded predicate call appends one fragment when the guard is true and is a
no-op otherwise; `get_sql_segment` joins the fragments into one boolean
expression (`status = ? AND name LIKE ?` style) whose placeholders stand
for the fragments' bound values in order, `in_` contributing one
placeholder per element and `between` exactly two; `get_select_sql`
renders the projection, defaulting to `*`. -/

/-- One accumulated predicate fragment of a `Wrapper`. -/
inductive WFragment where
  | eq (col : String) (v : Value)
  | like (col : String) (v : Value)
  | inList (col : String) (vs : List Value)
  | between (col : String) (lo hi : Value)
  deriving DecidableEq, Repr

/-- Modelled from the spec: `Wrapper` builder state (§3) — ordered
predicate fragments, ordered set-clauses, projection columns. -/
structure Wrapper where
  fragments : List WFragment
  fieldsSet : List (String × Value)
  selects : List String
  deriving DecidableEq, Repr

/-- `Wrapper::new()`. -/
def Wrapper.new : Wrapper := ⟨[], [], []⟩

/-- Guarded `eq` predicate. -/
def Wrapper.eqW (w : Wrapper) (apply : Bool) (col : String) (v : Value) : Wrapper :=
  if apply then { w with fragments := w.fragments ++ [.eq col v] } else w

/-- Guarded `like` predicate. -/
def Wrapper.likeW (w : Wrapper) (apply : Bool) (col : String) (v : Value) : Wrapper :=
  if apply then { w with fragments := w.fragments ++ [.like col v] } else w

/-- Guarded `in_` predicate. -/
def Wrapper.inW (w : Wrapper) (apply : Bool) (col : String) (vs : List Value) : Wrapper :=
  if apply then { w with fragments := w.fragments ++ [.inList col vs] } else w

/-- Guarded `between` predicate. -/
def Wrapper.betweenW (w : Wrapper) (apply : Bool) (col : String) (lo hi : Value) : Wrapper :=
  if apply then { w with fragments := w.fragments ++ [.between col lo hi] } else w

/-- Rendered SQL of one fragment, un-numbered placeholder style. -/
def fragmentSql : WFragment → String
  | .eq col _ => col ++ " = ?"
  | .like col _ => col ++ " LIKE ?"
  | .inList col vs => col ++ " IN (" ++ joinComma (vs.map (fun _ => "?")) ++ ")"
  | .between col _ _ => col ++ " BETWEEN ? AND ?"

/-- The values a fragment binds, in order. -/
def fragmentValues : WFragment → List Value
  | .eq _ v => [v]
  | .like _ v => [v]
  | .inList _ vs => vs
  | .between _ lo hi => [lo, hi]

/-- The column a fragment constrains. -/
def fragmentCol : WFragment → String
  | .eq col _ => col
  | .like col _ => col
  | .inList col _ => col
  | .between col _ _ => col

/-- `Wrapper::get_sql_segment`: the accumulated predicates joined into one
boolean expression. -/
def Wrapper.getSqlSegment (w : Wrapper) : String :=
  joinWith " AND " (w.fragments.map fragmentSql)

/-- All values bound by a wrapper's fragments, in fragment order. -/
def Wrapper.boundValues (w : Wrapper) : List Value :=
  w.fragments.flatMap fragmentValues

/-- `Wrapper::get_select_sql`: projection list, `*` when empty. -/
def Wrapper.getSelectSql (w : Wrapper) : String :=
  if w.selects.isEmpty then "*" else joinComma w.selects

/-! ## Row decoding and paging -/

/-- Modelled from the spec: row decoding (§4.1/§6) — a row's first cell
read back as a signed integer, as `exec_first::<i64>` does for `COUNT`
queries; the `FromValue` implementations live outside `src/`. -/
def rowToInt (r : Obj) : Option Int :=
  match r.head? with
  | some (_, Value.int i) => some i
  | some (_, Value.uint n) => some (n : Int)
  | _ => none

/-- Modelled from the spec: decoding a one-column row (the follow-up
last-insert-id query of `save`) into the identifier value. -/
def idFromRow (r : Obj) : Value :=
  ((r.head?.map (·.2)).getD .nil)

/-- Rust's `as usize` cast of an `i64` (wrapping, 64-bit). -/
def intToUsize (i : Int) : Nat := (i % ((2 : Int) ^ 64)).toNat

/-- Modelled from the spec: the `IPage` result container (§3 `Page`) —
`IPage::new(page, size, total, records)` stores its arguments; the
`mapper` module defining it is not under `src/`. -/
structure IPage (T : Type) where
  num : Nat
  size : Nat
  total : Nat
  records : List T
  deriving DecidableEq, Repr

/-- Modelled from the spec: `offset = (page_number - 1) * page_size` when
`page_number >= 1`, else treated as page 1 (§3). -/
def IPage.offset {T : Type} (p : IPage T) : Nat :=
  (if p.num ≥ 1 then p.num - 1 else 0) * p.size

/-! ## Shared SQL pieces (`fuse.rs`) -/

/-- The `MissingTable` message used by every validating operation. -/
def msgMissingTable : String := "Find Error, Missing Table Name !"

/-- The `MissingIdent` message for a descriptor without identifier. -/
def msgMissingIdent (table : TableName) : String :=
  "Table(" ++ table.name ++ ") Missing Ident..."

/-- The `MissingIdent` message for an absent identifier value. -/
def msgMissingIdentValue (table : TableName) : String :=
  "Table(" ++ table.name ++ ") Missing Ident value..."

/-- The back-quoted, comma-joined list of existing column names
(`enumerated_columns` in `fuse.rs`). -/
def enumeratedColumns (cols : List FieldMeta) : String :=
  joinComma ((cols.filter (·.exist)).map (fun c => "`" ++ c.name ++ "`"))

/-- The projection actually used: the wrapper's `select` list unless it is
the default `*`, in which case the descriptor's existing columns. -/
def selectColumns (cols : List FieldMeta) (w : Wrapper) : String :=
  if w.getSelectSql = "*" then enumeratedColumns cols else w.getSelectSql

/-- The rendered `WHERE` part: empty when the wrapper's segment trims to
nothing, else `WHERE <segment>`. -/
def whereClause (w : Wrapper) : String :=
  if (w.getSqlSegment.trim).isEmpty then "" else "WHERE " ++ w.getSqlSegment

/-- The `SELECT` statement of `list`/`select_one`. -/
def listSql (table : TableName) (cols : List FieldMeta) (w : Wrapper) : String :=
  "SELECT " ++ selectColumns cols w ++ " FROM " ++ table.complete ++ " " ++ whereClause w

/-- The `COUNT` statement of `page`. -/
def pageCountSql (table : TableName) (w : Wrapper) : String :=
  "select count(1) as count from " ++ table.complete ++ " " ++ whereClause w

/-- The row-fetch statement of `page`. -/
def pageDataSql (table : TableName) (cols : List FieldMeta) (w : Wrapper)
    (offset size : Nat) : String :=
  "SELECT " ++ selectColumns cols w ++ " FROM " ++ table.complete ++ " "
    ++ whereClause w ++ " limit " ++ natStr offset ++ ", " ++ natStr size

/-- The `COUNT` statement of `count`. -/
def countSql (table : TableName) (w : Wrapper) : String :=
  "SELECT COUNT(1) AS count FROM " ++ table.complete ++ " " ++ whereClause w

/-- The `DELETE` statement of `remove`. -/
def removeSql (table : TableName) (w : Wrapper) : String :=
  "delete from " ++ table.complete ++ " " ++ whereClause w

/-- The `DELETE`-by-id statement of `remove_by_id`: `?` for MySQL, the
numbered `$col_len+1` for the other dialects (`col_len` counts all
descriptor fields). -/
def removeByIdSql (pf : Platform) (table : TableName) (cols : List FieldMeta)
    (fieldName : String) : String :=
  match pf with
  | .mysql => "delete from " ++ table.name ++ " where `" ++ fieldName ++ "` = ?"
  | .sqlite => "delete from " ++ table.name ++ " where `" ++ fieldName ++ "` = $"
      ++ natStr (cols.length + 1)

/-- The `DELETE ... IN` statement of `remove_by_ids`: a single placeholder
inside the `IN` group for either dialect. -/
def removeByIdsSql (pf : Platform) (table : TableName) (cols : List FieldMeta)
    (fieldName : String) : String :=
  match pf with
  | .mysql => "delete from " ++ table.name ++ " where `" ++ fieldName ++ "` in (?)"
  | .sqlite => "delete from " ++ table.name ++ " where `" ++ fieldName ++ "` in ($"
      ++ natStr (cols.length + 1) ++ ")"

/-- Whether a column participates in the `SET` clause of `update_by_id`:
it must exist and be a plain (`TableField`) column. -/
def keptB (c : FieldMeta) : Bool := c.exist && c.fieldType == .tableField

/-- The `SET`-clause pieces of `update_by_id`, with the running index of
the numbered dialect starting at `i` (the Rust code filters, then
enumerates, so indices count only kept columns). -/
def setPieces (pf : Platform) (i : Nat) : List FieldMeta → List String
  | [] => []
  | c :: rest =>
      if keptB c then
        (match pf with
         | .mysql => "`" ++ c.name ++ "` = ?"
         | .sqlite => "`" ++ c.name ++ "` = $" ++ natStr (i + 1)) :: setPieces pf (i + 1) rest
      else setPieces pf i rest

/-- The `UPDATE`-by-id statement: `SET` pieces joined with `", "`, then the
`WHERE` on the identifier column — `?` for MySQL, `$col_len+1` for the
numbered dialect, `col_len` being the length of the whole field list. -/
def updateByIdSql (pf : Platform) (table : TableName) (cols : List FieldMeta)
    (fieldName : String) : String :=
  match pf with
  | .mysql => "update " ++ table.name ++ " set " ++ joinComma (setPieces .mysql 0 cols)
      ++ " where `" ++ fieldName ++ "` = ?"
  | .sqlite => "update " ++ table.name ++ " set " ++ joinComma (setPieces .sqlite 0 cols)
      ++ " where `" ++ fieldName ++ "` = $" ++ natStr (cols.length + 1)

/-! ## Bound-value extraction (the `values` loops of `fuse.rs`) -/

/-- The insert-path `values` loop of `save`/`save_batch`: every descriptor
column in order (no filtering); a `fill` rule in mode `"insert"` or
`"default"` replaces the instance value by the rule's value; an absent
value binds `Nil`. -/
def insertValues (data : Obj) : List FieldMeta → List Value
  | [] => []
  | col :: rest =>
      let v0 := getObjValue data col.name
      let v1 := match col.fill with
        | none => v0
        | some f => if f.mode = "insert" ∨ f.mode = "default" then f.value else v0
      (match v1 with | some v => v | none => Value.nil) :: insertValues data rest

/-- The update-path `values` loop of `update_by_id`: only existing plain
columns, in order; a `fill` rule in mode `"update"` or `"default"`
replaces the instance value; an absent value binds `Nil`. -/
def updatePlainValues (data : Obj) : List FieldMeta → List Value
  | [] => []
  | col :: rest =>
      if keptB col then
        let v0 := getObjValue data col.name
        let v1 := match col.fill with
          | none => v0
          | some f => if f.mode = "update" ∨ f.mode = "default" then f.value else v0
        (match v1 with | some v => v | none => Value.nil) :: updatePlainValues data rest
      else updatePlainValues data rest

/-- The nested loops of `save_batch`: insert values of every entity, in
entity order. -/
def saveBatchValues (cols : List FieldMeta) : List Obj → List Value
  | [] => []
  | e :: rest => insertValues e cols ++ saveBatchValues cols rest

/-! ## The facade operations

Each operation returns its `Result` together with the ordered trace of
connection acquisitions and SQL executions it performed. -/

/-- `AkitaMapper::list`. -/
def listOp (table : TableName) (cols : List FieldMeta) (w : Wrapper)
    (be : Backend) : Except AkitaError (List Obj) × List Event :=
  if table.complete.isEmpty then (.error (.missingTable msgMissingTable), [])
  else
    let sql := listSql table cols w
    (.ok (be.query sql .nil), [.acquire, .exec sql .nil])

/-- `AkitaMapper::select_one`. -/
def selectOneOp (table : TableName) (cols : List FieldMeta) (w : Wrapper)
    (be : Backend) : Except AkitaError (Option Obj) × List Event :=
  if table.complete.isEmpty then (.error (.missingTable msgMissingTable), [])
  else
    let sql := listSql table cols w
    (.ok (be.query sql .nil).head?, [.acquire, .exec sql .nil])

/-- Modelled from the spec: `exec_first` (the `mapper` module is not under
`src/`) — executes one statement through `exec_iter` (acquire + execute)
and decodes the first row, failing with a `DataError` when there is none
or it does not decode. -/
def execFirstInt (sql : String) (be : Backend) : Except AkitaError Int × List Event :=
  let tr : List Event := [.acquire, .exec sql .nil]
  match (be.query sql .nil).head? with
  | none => (.error (.dataError "No record found"), tr)
  | some r =>
      match rowToInt r with
      | some i => (.ok i, tr)
      | none => (.error (.dataError "No record found"), tr)

/-- `AkitaMapper::count`. -/
def countOp (table : TableName) (w : Wrapper) (be : Backend) :
    Except AkitaError Nat × List Event :=
  if table.complete.isEmpty then (.error (.missingTable msgMissingTable), [])
  else
    match execFirstInt (countSql table w) be with
    | (.ok i, tr) => (.ok (intToUsize i), tr)
    | (.error e, tr) => (.error e, tr)

/-- `AkitaMapper::page`: the `COUNT` query first (through `exec_first`),
then — only when the resulting total is positive — a second connection and
the row-fetch query. -/
def pageOp (table : TableName) (cols : List FieldMeta) (pnum psize : Nat)
    (w : Wrapper) (be : Backend) : Except AkitaError (IPage Obj) × List Event :=
  if table.complete.isEmpty then (.error (.missingTable msgMissingTable), [])
  else
    match execFirstInt (pageCountSql table w) be with
    | (.error e, tr) => (.error e, tr)
    | (.ok c, tr) =>
        let p : IPage Obj := ⟨pnum, psize, intToUsize c, []⟩
        if p.total > 0 then
          let sql := pageDataSql table cols w p.offset p.size
          (.ok { p with records := be.query sql .nil }, tr ++ [.acquire, .exec sql .nil])
        else (.ok p, tr)

/-- `AkitaMapper::remove`. -/
def removeOp (table : TableName) (w : Wrapper) (be : Backend) :
    Except AkitaError Nat × List Event :=
  if table.complete.isEmpty then (.error (.missingTable msgMissingTable), [])
  else
    let sql := removeSql table w
    (.ok be.affected, [.acquire, .exec sql .nil])

/-- `AkitaMapper::remove_by_id`: validates the table name, acquires a
connection, then requires an identifier field before building SQL. -/
def removeByIdOp (pf : Platform) (table : TableName) (cols : List FieldMeta)
    (idv : Value) (be : Backend) : Except AkitaError Nat × List Event :=
  if table.complete.isEmpty then (.error (.missingTable msgMissingTable), [])
  else
    match cols.find? isId with
    | some f =>
        let sql := removeByIdSql pf table cols f.name
        (.ok be.affected, [.acquire, .exec sql (.vector [idv])])
    | none => (.error (.missingIdent (msgMissingIdent table)), [.acquire])

/-- `AkitaMapper::remove_by_ids`: one `IN (...)` placeholder, the ids
stringified and comma-joined into a single text parameter. -/
def removeByIdsOp (pf : Platform) (table : TableName) (cols : List FieldMeta)
    (ids : List Value) (be : Backend) : Except AkitaError Nat × List Event :=
  if table.complete.isEmpty then (.error (.missingTable msgMissingTable), [])
  else
    match cols.find? isId with
    | some f =>
        let sql := removeByIdsSql pf table cols f.name
        let joined := joinWith "," (ids.map Value.toStr)
        (.ok be.affected, [.acquire, .exec sql (.vector [.text joined])])
    | none => (.error (.missingIdent (msgMissingIdent table)), [.acquire])

/-- `AkitaMapper::update_by_id`: validates the table name, acquires a
connection, requires an identifier field, builds the `UPDATE`, collects
the plain-field values, and appends the identifier value last — failing
only when the serialized object has no entry for the identifier column. -/
def updateByIdOp (pf : Platform) (table : TableName) (cols : List FieldMeta)
    (data : Obj) (be : Backend) : Except AkitaError Nat × List Event :=
  if table.complete.isEmpty then (.error (.missingTable msgMissingTable), [])
  else
    match cols.find? isId with
    | some f =>
        let sql := updateByIdSql pf table cols f.name
        let vals := updatePlainValues data cols
        match getObjValue data f.name with
        | some idv => (.ok be.affected, [.acquire, .exec sql (.vector (vals ++ [idv]))])
        | none => (.error (.missingIdent (msgMissingIdentValue table)), [.acquire])
    | none => (.error (.missingIdent (msgMissingIdent table)), [.acquire])

/-- Modelled from the spec: `build_insert_clause` (the `manager` module is
not under `src/`) — §4.3 typed-path INSERT: existing columns in descriptor
order, one parenthesized tuple per entity, `?` placeholders for the
un-numbered dialect and `$k` continuing across tuples for the numbered
one.  It returns a plain string and can fail in no way. -/
def buildInsertClause (pf : Platform) (table : TableName) (cols : List FieldMeta)
    (n : Nat) : String :=
  let names := (cols.filter (·.exist)).map (·.name)
  let len := names.length
  let tuple := fun (y : Nat) =>
    "(" ++ joinComma ((List.range len).map (fun x =>
      match pf with
      | .mysql => "?"
      | .sqlite => "$" ++ natStr (y * len + x + 1))) ++ ")"
  "INSERT INTO " ++ table.complete ++ " ("
    ++ joinComma (names.map (fun c => "`" ++ c ++ "`")) ++ ") VALUES "
    ++ joinComma ((List.range n).map tuple)

/-- The dialect-specific follow-up statement retrieving the last inserted
identifier. -/
def lastInsertSql (pf : Platform) : String :=
  match pf with
  | .mysql => "SELECT LAST_INSERT_ID();"
  | .sqlite => "SELECT LAST_INSERT_ROWID();"

/-- `AkitaMapper::save`: no table-name validation; builds the INSERT,
binds `insertValues`, executes, then issues the last-insert-id follow-up
query and decodes its first row. -/
def saveOp (pf : Platform) (table : TableName) (cols : List FieldMeta)
    (data : Obj) (be : Backend) : Except AkitaError (Option Value) × List Event :=
  let sql := buildInsertClause pf table cols 1
  let vals := insertValues data cols
  let last := lastInsertSql pf
  (.ok ((be.query last .nil).head?.map idFromRow),
   [.acquire, .exec sql (.vector vals), .exec last .nil])

/-- `AkitaMapper::save_batch`: no table-name validation; one INSERT with
every entity's insert values concatenated. -/
def saveBatchOp (pf : Platform) (table : TableName) (cols : List FieldMeta)
    (entities : List Obj) (be : Backend) : Except AkitaError Unit × List Event :=
  let sql := buildInsertClause pf table cols entities.length
  let vals := saveBatchValues cols entities
  (.ok (), [.acquire, .exec sql (.vector vals)])

/-- The identifier value `save_or_update` branches on: the serialized
value of the first identifier field, `Nil` when absent or when the
descriptor has no identifier field. -/
def resolvedId (cols : List FieldMeta) (data : Obj) : Value :=
  match cols.find? isId with
  | some f => (getObjValue data f.name).getD .nil
  | none => .nil

/-- `AkitaMapper::save_or_update`: `Nil` identifier value takes the insert
path (`save`), any other value takes `update_by_id` and returns that same
identifier. -/
def saveOrUpdateOp (pf : Platform) (table : TableName) (cols : List FieldMeta)
    (data : Obj) (be : Backend) : Except AkitaError (Option Value) × List Event :=
  match resolvedId cols data with
  | .nil => saveOp pf table cols data be
  | idv =>
      match updateByIdOp pf table cols data be with
      | (.ok _, tr) => (.ok (some idv), tr)
      | (.error e, tr) => (.error e, tr)

/-- `Akita::build_insert_clause_map` (the map-based INSERT of `fuse.rs`):
acquires its own connection, then renders columns from the entity's
serialized mapping order. -/
def buildInsertClauseMapSql (pf : Platform) (table : String) (objs : List Obj) : String :=
  let columns := (objs.headD []).map (·.1)
  let len := columns.length
  "INSERT INTO " ++ table ++ " ("
    ++ joinComma (columns.map (fun c => "`" ++ c ++ "`")) ++ ")\nVALUES "
    ++ joinComma ((List.range objs.length).map (fun y =>
        "\n\t(" ++ joinComma ((List.range len).map (fun x =>
          match pf with
          | .mysql => "?"
          | .sqlite => "$" ++ natStr (y * len + x + 1))) ++ ")"))

/-- `Akita::save_map`: builds the map-based INSERT (which acquires a first
connection), collects the values in mapping order, then acquires a second
connection and executes. -/
def saveMapOp (pf : Platform) (table : String) (data : Obj) (be : Backend) :
    Except AkitaError Unit × List Event :=
  let sql := buildInsertClauseMapSql pf table [data]
  let vals := data.map (fun p => (getObjValue data p.1).getD .nil)
  (.ok (), [.acquire, .acquire, .exec sql (.vector vals)])

/-- The `SELECT`-by-id statement of `select_by_id`: the existing columns,
a `WHERE` on the identifier — `?` for MySQL, the numbered `$col_len+1` for
the other dialects (`col_len` counts all descriptor fields) — and
`limit 1`. -/
def selectByIdSql (pf : Platform) (table : TableName) (cols : List FieldMeta)
    (fieldName : String) : String :=
  match pf with
  | .mysql => "SELECT " ++ enumeratedColumns cols ++ " FROM " ++ table.complete
      ++ " WHERE `" ++ fieldName ++ "` = ? limit 1"
  | .sqlite => "SELECT " ++ enumeratedColumns cols ++ " FROM " ++ table.complete
      ++ " WHERE `" ++ fieldName ++ "` = $" ++ natStr (cols.length + 1) ++ " limit 1"

/-- `AkitaMapper::select_by_id`: validates the table name, acquires a
connection, requires an identifier field, then fetches at most one row by
that identifier. -/
def selectByIdOp (pf : Platform) (table : TableName) (cols : List FieldMeta)
    (idv : Value) (be : Backend) : Except AkitaError (Option Obj) × List Event :=
  if table.complete.isEmpty then (.error (.missingTable msgMissingTable), [])
  else
    match cols.find? isId with
    | some f =>
        let sql := selectByIdSql pf table cols f.name
        (.ok (be.query sql (.vector [idv])).head?,
         [.acquire, .exec sql (.vector [idv])])
    | none => (.error (.missingIdent (msgMissingIdent table)), [.acquire])

/-- Modelled from the spec: `build_update_clause` (the `manager` module is
not under `src/`) — renders `update <table> set <clauses>` followed by the
wrapper's WHERE fragment, taking the set-clauses from the wrapper's
`fields_set` or, when that is empty, falling back to the entity's existing
plain fields positionally (§4.3, §9's explicit two-path contract; shape as
`Akita::build_update_clause` in `fuse.rs`).  It returns a plain string and
can fail in no way. -/
def buildUpdateClause (pf : Platform) (table : TableName) (cols : List FieldMeta)
    (w : Wrapper) : String :=
  let setPart := if w.fieldsSet.isEmpty
    then joinComma (setPieces pf 0 cols)
    else joinComma (w.fieldsSet.map (fun p => "`" ++ p.1 ++ "` = ?"))
  "update " ++ table.complete ++ " set " ++ setPart
    ++ (if (w.getSqlSegment.trim).isEmpty then ""
        else " where " ++ w.getSqlSegment)

/-- `AkitaMapper::update`: validates the table name, acquires a
connection, builds the update clause, and executes it — binding the
entity's plain-field values (update-trigger fills applied) when the
wrapper has no set-clauses, and no parameters at all when it does. -/
def updateOp (pf : Platform) (table : TableName) (cols : List FieldMeta)
    (data : Obj) (w : Wrapper) (be : Backend) : Except AkitaError Nat × List Event :=
  if table.complete.isEmpty then (.error (.missingTable msgMissingTable), [])
  else
    let sql := buildUpdateClause pf table cols w
    if w.fieldsSet.isEmpty then
      (.ok be.affected, [.acquire, .exec sql (.vector (updatePlainValues data cols))])
    else
      (.ok be.affected, [.acquire, .exec sql Params.nil])

/-! ## Lemmas about character counting -/

theorem countCharL_append (c : Char) (l m : List Char) :
    countCharL c (l ++ m) = countCharL c l + countCharL c m := by
  induction l with
  | nil => simp [countCharL]
  | cons d rest ih => simp [countCharL, ih]; omega

theorem countCharL_eq_zero (c : Char) (l : List Char)
    (h : ∀ d ∈ l, d ≠ c) : countCharL c l = 0 := by
  induction l with
  | nil => rfl
  | cons d rest ih =>
      have hd : d ≠ c := h d (by simp)
      simp [countCharL, hd, ih (fun e he => h e (by simp [he]))]

theorem countChar_append (c : Char) (s t : String) :
    countChar c (s ++ t) = countChar c s + countChar c t := by
  simp [countChar, String.data_append, countCharL_append]

theorem countChar_eq_zero (c : Char) (s : String)
    (h : c ∉ s.data) : countChar c s = 0 :=
  countCharL_eq_zero c s.data (fun d hd he => h (he ▸ hd))

/-! ## Lemmas about decimal digits -/

/-- Accumulating value of a digit run (the scanner's arithmetic). -/
def valDigits : List Char → Nat → Nat
  | [], acc => acc
  | d :: rest, acc => valDigits rest (acc * 10 + digitVal d)

theorem valDigits_append (l m : List Char) (acc : Nat) :
    valDigits (l ++ m) acc = valDigits m (valDigits l acc) := by
  induction l generalizing acc with
  | nil => rfl
  | cons d rest ih =>
      rw [List.cons_append, valDigits, valDigits]
      exact ih _

theorem digitChar_isDigit {m : Nat} (h : m < 10) : (digitChar m).isDigit = true := by
  interval_cases m <;> decide

theorem digitVal_digitChar {m : Nat} (h : m < 10) : digitVal (digitChar m) = m := by
  interval_cases m <;> decide

theorem digitChar_ne_dollar {m : Nat} (h : m < 10) : digitChar m ≠ '$' := by
  interval_cases m <;> decide

theorem natToCharsAux_digits (fuel : Nat) :
    ∀ n, n < fuel → ∀ c ∈ natToCharsAux fuel n, c.isDigit = true := by
  induction fuel with
  | zero => intro n h; omega
  | succ fuel ih =>
      intro n h c hc
      rw [natToCharsAux] at hc
      split at hc
      · simp at hc
        subst hc
        exact digitChar_isDigit (by omega)
      · next h10 =>
          rw [List.mem_append] at hc
          have hdiv : n / 10 < n := Nat.div_lt_self (by omega) (by omega)
          rcases hc with hc | hc
          · exact ih (n / 10) (by omega) c hc
          · simp at hc
            subst hc
            exact digitChar_isDigit (Nat.mod_lt _ (by omega))

theorem natToChars_digits (n : Nat) : ∀ c ∈ natToChars n, c.isDigit = true :=
  natToCharsAux_digits (n + 1) n (by omega)

theorem natToChars_ne_nil (n : Nat) : natToChars n ≠ [] := by
  unfold natToChars natToCharsAux
  split
  · simp
  · simp

theorem natToCharsAux_val (fuel : Nat) :
    ∀ n, n < fuel → valDigits (natToCharsAux fuel n) 0 = n := by
  induction fuel with
  | zero => intro n h; omega
  | succ fuel ih =>
      intro n h
      rw [natToCharsAux]
      split
      · next h10 => simp [valDigits, digitVal_digitChar h10]
      · next h10 =>
          have hdiv : n / 10 < n := Nat.div_lt_self (by omega) (by omega)
          rw [valDigits_append, ih (n / 10) (by omega)]
          simp [valDigits, digitVal_digitChar (Nat.mod_lt _ (by omega))]
          omega

theorem natToChars_val (n : Nat) : valDigits (natToChars n) 0 = n :=
  natToCharsAux_val (n + 1) n (by omega)

/-! ## Lemmas about the `$n` placeholder scanner -/

/-- A character list whose head, if any, is not a digit — the shapes of
text allowed to follow a numbered placeholder without extending it. -/
def headNotDigit : List Char → Prop
  | [] => True
  | c :: _ => c.isDigit = false

theorem scanPh_no_dollar (xs ys : List Char) (h : ∀ c ∈ xs, c ≠ '$') :
    scanPh (xs ++ ys) .plain = scanPh ys .plain := by
  induction xs with
  | nil => rfl
  | cons c rest ih =>
      have hc : c ≠ '$' := h c (by simp)
      rw [List.cons_append, scanPh, if_neg hc]
      exact ih (fun d hd => h d (by simp [hd]))

theorem scanPh_digits (ds ys : List Char) (acc : Nat)
    (h : ∀ c ∈ ds, c.isDigit = true) :
    scanPh (ds ++ ys) (.num acc) = scanPh ys (.num (valDigits ds acc)) := by
  induction ds generalizing acc with
  | nil => rfl
  | cons d rest ih =>
      have hd : d.isDigit = true := h d (by simp)
      rw [List.cons_append, scanPh, if_pos hd, valDigits]
      exact ih _ (fun c hc => h c (by simp [hc]))

theorem scanPh_dollar_digits (ds ys : List Char) (hne : ds ≠ [])
    (h : ∀ c ∈ ds, c.isDigit = true) :
    scanPh (ds ++ ys) .dollar = scanPh ys (.num (valDigits ds 0)) := by
  match ds, hne with
  | d :: rest, _ =>
      have hd : d.isDigit = true := h d (by simp)
      rw [List.cons_append, scanPh, if_pos hd, valDigits]
      have : (0 : Nat) * 10 + digitVal d = digitVal d := by omega
      rw [this]
      exact scanPh_digits rest ys _ (fun c hc => h c (by simp [hc]))

theorem scanPh_num_exit (ys : List Char) (acc : Nat) (h : headNotDigit ys) :
    scanPh ys (.num acc) = acc :: scanPh ys .plain := by
  match ys with
  | [] => rfl
  | c :: rest =>
      have hc : c.isDigit = false := h
      by_cases hd : c = '$'
      · subst hd
        simp [scanPh, hc]
      · simp [scanPh, hc, hd]

/-- Scanning a no-`$` prefix, then a `$k` placeholder, then a remainder
that does not start with a digit, yields `k` followed by the scan of the
remainder. -/
theorem scanPh_placeholder (pre : List Char) (k : Nat) (ys : List Char)
    (hpre : ∀ c ∈ pre, c ≠ '$') (hys : headNotDigit ys) :
    scanPh (pre ++ '$' :: (natToChars k ++ ys)) .plain = k :: scanPh ys .plain := by
  rw [scanPh_no_dollar pre _ hpre]
  rw [show scanPh ('$' :: (natToChars k ++ ys)) .plain
      = scanPh (natToChars k ++ ys) .dollar from by rw [scanPh, if_pos rfl]]
  rw [scanPh_dollar_digits _ _ (natToChars_ne_nil k) (natToChars_digits k)]
  rw [natToChars_val]
  exact scanPh_num_exit ys k hys

/-! ## The placeholder numbers of the UPDATE-by-id statement -/

/-- The placeholder numbers the `SET` clause assigns, running index
starting at `i`: one number per kept (existing plain) column. -/
def keptNums (i : Nat) : List FieldMeta → List Nat
  | [] => []
  | c :: rest => if keptB c then (i + 1) :: keptNums (i + 1) rest else keptNums i rest

/-- Number of existing plain columns (the `SET`-clause arity). -/
def countKept (cols : List FieldMeta) : Nat := (cols.filter keptB).length

theorem setPieces_nil_iff (pf : Platform) (i : Nat) (cols : List FieldMeta) :
    setPieces pf i cols = [] ↔ ∀ c ∈ cols, keptB c = false := by
  induction cols generalizing i with
  | nil => simp [setPieces]
  | cons c rest ih =>
      by_cases hc : keptB c
      · simp [setPieces, hc]
      · simp only [setPieces, if_neg hc, ih]
        constructor
        · intro h d hd
          rcases List.mem_cons.mp hd with h1 | h1
          · subst h1; exact Bool.eq_false_iff.mpr hc
          · exact h d h1
        · intro h d hd
          exact h d (List.mem_cons_of_mem c hd)

theorem keptNums_nil_of (i : Nat) (cols : List FieldMeta)
    (h : ∀ c ∈ cols, keptB c = false) : keptNums i cols = [] := by
  induction cols generalizing i with
  | nil => rfl
  | cons c rest ih =>
      rw [keptNums, if_neg (by simp [h c (by simp)])]
      exact ih i (fun d hd => h d (List.mem_cons_of_mem c hd))

/-- Scanning one `SET` piece: the back-quoted column, `= $`, and the
number `k`, followed by a remainder that does not begin with a digit. -/
theorem scanPh_setPiece (name : String) (k : Nat) (ys : List Char)
    (hname : '$' ∉ name.data) (hys : headNotDigit ys) :
    scanPh (("`" ++ name ++ "` = $" ++ natStr k).data ++ ys) .plain
      = k :: scanPh ys .plain := by
  have heq : ("`" ++ name ++ "` = $" ++ natStr k).data ++ ys
      = ('`' :: (name.data ++ ['`', ' ', '=', ' '])) ++ '$' :: (natToChars k ++ ys) := by
    simp [String.data_append, natStr]
  rw [heq]
  refine scanPh_placeholder _ k ys ?_ hys
  intro c hc
  rcases List.mem_cons.mp hc with h1 | h1
  · subst h1; decide
  · rcases List.mem_append.mp h1 with h2 | h2
    · exact fun hcd => hname (hcd ▸ h2)
    · intro hcd
      subst hcd
      exact absurd h2 (by decide)

/-- Scanning the joined `SET` clause of the numbered dialect starting at
index `i`, followed by a remainder not beginning with a digit, yields the
kept-column numbers and the scan of the remainder. -/
theorem scanPh_setClause (cols : List FieldMeta) (i : Nat) (ys : List Char)
    (hD : ∀ c ∈ cols, '$' ∉ c.name.data) (hys : headNotDigit ys) :
    scanPh ((joinComma (setPieces .sqlite i cols)).data ++ ys) .plain
      = keptNums i cols ++ scanPh ys .plain := by
  induction cols generalizing i with
  | nil => simp [setPieces, joinComma, joinWith, keptNums]
  | cons c rest ih =>
      by_cases hc : keptB c
      · rw [setPieces, if_pos hc, keptNums, if_pos hc]
        match hrest : setPieces Platform.sqlite (i + 1) rest with
        | [] =>
            have hkn : keptNums (i + 1) rest = [] :=
              keptNums_nil_of _ _ ((setPieces_nil_iff _ _ _).mp hrest)
            rw [hkn]
            show scanPh ((joinComma [_]).data ++ ys) .plain = _
            rw [show joinComma [("`" ++ c.name ++ "` = $" ++ natStr (i + 1))]
                = "`" ++ c.name ++ "` = $" ++ natStr (i + 1) from rfl]
            rw [scanPh_setPiece c.name (i + 1) ys (hD c (by simp)) hys]
            rfl
        | p :: ps =>
            have hkn : joinComma (("`" ++ c.name ++ "` = $" ++ natStr (i + 1)) :: p :: ps)
                = ("`" ++ c.name ++ "` = $" ++ natStr (i + 1)) ++ ", "
                  ++ joinComma (p :: ps) := rfl
            rw [hkn]
            have hdata : (("`" ++ c.name ++ "` = $" ++ natStr (i + 1)) ++ ", "
                  ++ joinComma (p :: ps)).data ++ ys
                = ("`" ++ c.name ++ "` = $" ++ natStr (i + 1)).data
                  ++ ((", ").data ++ ((joinComma (p :: ps)).data ++ ys)) := by
              simp [String.data_append]
            rw [hdata]
            rw [scanPh_setPiece c.name (i + 1) _ (hD c (by simp)) (by exact rfl)]
            rw [show ((", ").data ++ ((joinComma (p :: ps)).data ++ ys))
                = (", ").data ++ ((joinComma (p :: ps)).data ++ ys) from rfl]
            rw [scanPh_no_dollar (", ").data _ (by decide)]
            rw [← hrest]
            exact congrArg _ (ih (i + 1) (fun d hd => hD d (List.mem_cons_of_mem c hd)))
      · rw [setPieces, if_neg hc, keptNums, if_neg hc]
        exact ih i (fun d hd => hD d (List.mem_cons_of_mem c hd))

theorem keptNums_eq_range (cols : List FieldMeta) (i : Nat) :
    keptNums i cols = (List.range (countKept cols)).map (fun j => i + j + 1) := by
  induction cols generalizing i with
  | nil => simp [keptNums, countKept]
  | cons c rest ih =>
      by_cases hc : keptB c
      · rw [keptNums, if_pos hc]
        have hck : countKept (c :: rest) = countKept rest + 1 := by
          simp [countKept, hc]
        rw [hck, List.range_succ_eq_map, List.map_cons, List.map_map, ih (i + 1)]
        refine congrArg₂ _ (by omega) (List.map_congr_left ?_)
        intro j hj
        simp [Function.comp]
        omega
      · rw [keptNums, if_neg hc]
        have hck : countKept (c :: rest) = countKept rest := by
          simp [countKept, hc]
        rw [hck, ih i]

theorem keptNums_le (cols : List FieldMeta) (i : Nat) :
    ∀ x ∈ keptNums i cols, x ≤ i + countKept cols := by
  rw [keptNums_eq_range]
  intro x hx
  simp only [List.mem_map, List.mem_range] at hx
  obtain ⟨j, hj, rfl⟩ := hx
  omega

theorem countKept_le_length (cols : List FieldMeta) :
    countKept cols ≤ cols.length :=
  List.length_filter_le _ _

/-- The complete placeholder-number list of the numbered-dialect
UPDATE-by-id statement: the kept-column numbers `1..m`, then
`cols.length + 1` for the `WHERE` clause. -/
theorem updateByIdSql_placeholders (table : TableName) (cols : List FieldMeta)
    (fname : String) (hT : '$' ∉ table.name.data)
    (hD : ∀ c ∈ cols, '$' ∉ c.name.data) (hf : '$' ∉ fname.data) :
    dollarPlaceholders (updateByIdSql .sqlite table cols fname)
      = keptNums 0 cols ++ [cols.length + 1] := by
  unfold dollarPlaceholders
  have hdata : (updateByIdSql Platform.sqlite table cols fname).data
      = (("update ").data ++ (table.name.data ++ (" set ").data))
        ++ ((joinComma (setPieces Platform.sqlite 0 cols)).data
          ++ ((((" where `").data ++ (fname.data ++ ['`', ' ', '=', ' ']))
            ++ '$' :: (natToChars (cols.length + 1) ++ [])))) := by
    simp [updateByIdSql, String.data_append, natStr]
  rw [hdata]
  rw [scanPh_no_dollar _ _ (by
    intro c hc
    rcases List.mem_append.mp hc with h1 | h1
    · intro he; subst he; exact absurd h1 (by decide)
    · rcases List.mem_append.mp h1 with h2 | h2
      · exact fun he => hT (he ▸ h2)
      · intro he; subst he; exact absurd h2 (by decide))]
  rw [scanPh_setClause cols 0 _ hD (by exact (by decide : (' ').isDigit = false))]
  rw [scanPh_placeholder _ _ [] (by
    intro c hc
    rcases List.mem_append.mp hc with h1 | h1
    · intro he; subst he; exact absurd h1 (by decide)
    · rcases List.mem_append.mp h1 with h2 | h2
      · exact fun he => hf (he ▸ h2)
      · intro he; subst he; exact absurd h2 (by decide)) trivial]
  rfl

/-! ## Effective bound values (the specification's fill contract) -/

/-- Whether a field's fill rule fires for the given operation trigger:
its mode is the trigger itself or the always-firing `"default"`. -/
def triggerMatches (t : String) (c : FieldMeta) : Bool :=
  match c.fill with
  | some f => f.mode == t || f.mode == "default"
  | none => false

/-- The value a firing fill rule resolves to. -/
def fillResolved (c : FieldMeta) : Value :=
  match c.fill with
  | some f => f.value.getD .nil
  | none => .nil

/-- The value the entity instance supplies for a field. -/
def instanceValue (data : Obj) (c : FieldMeta) : Value :=
  (getObjValue data c.name).getD .nil

/-- The value bound for one field on the insert path. -/
def insertEffective (data : Obj) (c : FieldMeta) : Value :=
  if triggerMatches "insert" c then fillResolved c else instanceValue data c

/-- The value bound for one field on the update path. -/
def updateEffective (data : Obj) (c : FieldMeta) : Value :=
  if triggerMatches "update" c then fillResolved c else instanceValue data c

theorem insertValues_eq_map (data : Obj) (cols : List FieldMeta) :
    insertValues data cols = cols.map (insertEffective data) := by
  induction cols with
  | nil => rfl
  | cons c rest ih =>
      rw [insertValues, List.map_cons, ih]
      congr 1
      cases hf : c.fill with
      | none =>
          simp only [insertEffective, triggerMatches, hf, Bool.false_eq_true,
            if_false, instanceValue]
          cases getObjValue data c.name <;> rfl
      | some f =>
          by_cases hm : f.mode = "insert" ∨ f.mode = "default"
          · have ht : triggerMatches "insert" c = true := by
              simp [triggerMatches, hf]
              rcases hm with h | h <;> simp [h]
            simp only [insertEffective, ht, if_true, fillResolved, hf, hm, if_pos]
            cases f.value <;> rfl
          · have ht : triggerMatches "insert" c = false := by
              simp [triggerMatches, hf]
              constructor
              · exact fun h => hm (Or.inl h)
              · exact fun h => hm (Or.inr h)
            simp only [insertEffective, ht, Bool.false_eq_true, if_false,
              hf, hm, instanceValue, if_neg]
            cases getObjValue data c.name <;> rfl

theorem updatePlainValues_eq_map (data : Obj) (cols : List FieldMeta) :
    updatePlainValues data cols = (cols.filter keptB).map (updateEffective data) := by
  induction cols with
  | nil => rfl
  | cons c rest ih =>
      by_cases hk : keptB c
      · rw [updatePlainValues, if_pos hk, List.filter_cons_of_pos hk,
          List.map_cons, ih]
        congr 1
        cases hf : c.fill with
        | none =>
            simp only [updateEffective, triggerMatches, hf, Bool.false_eq_true,
              if_false, instanceValue]
            cases getObjValue data c.name <;> rfl
        | some f =>
            by_cases hm : f.mode = "update" ∨ f.mode = "default"
            · have ht : triggerMatches "update" c = true := by
                simp [triggerMatches, hf]
                rcases hm with h | h <;> simp [h]
              simp only [updateEffective, ht, if_true, fillResolved, hf, hm, if_pos]
              cases f.value <;> rfl
            · have ht : triggerMatches "update" c = false := by
                simp [triggerMatches, hf]
                constructor
                · exact fun h => hm (Or.inl h)
                · exact fun h => hm (Or.inr h)
              simp only [updateEffective, ht, Bool.false_eq_true, if_false,
                hf, hm, instanceValue, if_neg]
              cases getObjValue data c.name <;> rfl
      · rw [updatePlainValues, if_neg hk, List.filter_cons_of_neg hk, ih]

theorem updatePlainValues_length (data : Obj) (cols : List FieldMeta) :
    (updatePlainValues data cols).length = countKept cols := by
  rw [updatePlainValues_eq_map, List.length_map, countKept]

/-! ## Concrete fixtures for the closed counterexamples and witnesses -/

/-- A one-word table name. -/
def table0 : TableName := ⟨"t", "t"⟩

/-- An identifier column. -/
def colId : FieldMeta := ⟨"id", true, .tableId, none⟩

/-- A plain column. -/
def colA : FieldMeta := ⟨"a", true, .tableField, none⟩

/-- Another plain column. -/
def colB : FieldMeta := ⟨"b", true, .tableField, none⟩

/-- A descriptor with one identifier and two plain columns. -/
def cols0 : List FieldMeta := [colId, colA, colB]

/-- A concrete serialized entity with a non-Nil identifier. -/
def data0 : Obj := [("id", .uint 7), ("a", .text "x"), ("b", .nil)]

/-- A backend answering every query with no rows. -/
def be0 : Backend := ⟨fun _ _ => [], 0⟩

/-! ## C1 — placeholder numbering of UPDATE-by-id (numbered dialect) -/

/-- C1 (amended): for the numbered-placeholder dialect, `update_by_id`
numbers the SET-clause placeholders first (one per existing plain field,
in field order, starting at 1) and numbers the WHERE-by-identifier
placeholder last; that last number is the highest in the statement and
equals `(total number of descriptor fields) + 1` — not `(number of plain
fields) + 1` — while the identifier parameter is the last element of the
parameter vector, whose length is only `(number of existing plain
fields) + 1`. -/
theorem c1_update_by_id_numbering (table : TableName) (cols : List FieldMeta)
    (f : FieldMeta) (data : Obj) (idv : Value) (be : Backend)
    (hT : table.complete.isEmpty = false)
    (hfind : cols.find? isId = some f)
    (hid : getObjValue data f.name = some idv)
    (hTd : '$' ∉ table.name.data)
    (hD : ∀ c ∈ cols, '$' ∉ c.name.data) :
    dollarPlaceholders (updateByIdSql .sqlite table cols f.name)
        = (List.range (countKept cols)).map (fun j => j + 1) ++ [cols.length + 1]
    ∧ (∀ k ∈ dollarPlaceholders (updateByIdSql .sqlite table cols f.name),
        k ≤ cols.length + 1)
    ∧ updateByIdOp .sqlite table cols data be
        = (.ok be.affected,
           [.acquire, .exec (updateByIdSql .sqlite table cols f.name)
             (.vector (updatePlainValues data cols ++ [idv]))])
    ∧ (updatePlainValues data cols ++ [idv]).getLast? = some idv
    ∧ (updatePlainValues data cols).length = countKept cols := by
  have hfn : '$' ∉ f.name.data := hD f (List.mem_of_find?_eq_some hfind)
  have hph := updateByIdSql_placeholders table cols f.name hTd hD hfn
  refine ⟨?_, ?_, ?_, ?_, ?_⟩
  · rw [hph, keptNums_eq_range cols 0]
    refine congrArg₂ _ (List.map_congr_left ?_) rfl
    intro j hj
    omega
  · intro k hk
    rw [hph] at hk
    rcases List.mem_append.mp hk with h | h
    · have h1 := keptNums_le cols 0 k h
      have h2 := countKept_le_length cols
      omega
    · simp at h
      omega
  · simp [updateByIdOp, hT, hfind, hid]
  · exact List.getLast?_concat _
  · exact updatePlainValues_length data cols

/-- C1 counterexample: for the three-field descriptor `cols0` (identifier
plus two plain fields) the generated numbered-dialect statement's
placeholder numbers are 1, 2, 4: the highest is 4, not
`(number of plain fields) + 1 = 3`. -/
theorem c1_counterexample :
    dollarPlaceholders (updateByIdSql .sqlite table0 cols0 "id") = [1, 2, 4]
      ∧ countKept cols0 + 1 = 3
      ∧ ¬ ∀ k ∈ dollarPlaceholders (updateByIdSql .sqlite table0 cols0 "id"),
            k ≤ countKept cols0 + 1 := by
  refine ⟨by decide, by decide, ?_⟩
  intro h
  have h2 := h 4 (by decide)
  rw [(by decide : countKept cols0 + 1 = 3)] at h2
  omega

/-- C1 witness: the amended theorem applied to the concrete descriptor
`cols0` and entity `data0`. -/
theorem c1_witness :
    (table0.complete.isEmpty = false)
    ∧ (cols0.find? isId = some colId)
    ∧ (getObjValue data0 "id" = some (Value.uint 7))
    ∧ (dollarPlaceholders (updateByIdSql .sqlite table0 cols0 colId.name)
          = (List.range (countKept cols0)).map (fun j => j + 1) ++ [cols0.length + 1]
      ∧ (∀ k ∈ dollarPlaceholders (updateByIdSql .sqlite table0 cols0 colId.name),
          k ≤ cols0.length + 1)
      ∧ updateByIdOp .sqlite table0 cols0 data0 be0
          = (.ok be0.affected,
             [.acquire, .exec (updateByIdSql .sqlite table0 cols0 colId.name)
               (.vector (updatePlainValues data0 cols0 ++ [Value.uint 7]))])
      ∧ (updatePlainValues data0 cols0 ++ [Value.uint 7]).getLast? = some (Value.uint 7)
      ∧ (updatePlainValues data0 cols0).length = countKept cols0) :=
  ⟨by decide, by decide, by decide,
   c1_update_by_id_numbering table0 cols0 colId data0 (Value.uint 7) be0
     (by decide) (by decide) (by decide) (by decide) (by decide)⟩

/-! ## C2 — wrapper-bound values and executed parameters -/

theorem countChar_joinWith (c : Char) (sep : String) (hsep : countChar c sep = 0)
    (l : List String) :
    countChar c (joinWith sep l) = (l.map (countChar c)).sum := by
  induction l with
  | nil => simp [joinWith]; rfl
  | cons s rest ih =>
      match rest with
      | [] => simp [joinWith]
      | t :: ts =>
          rw [show joinWith sep (s :: t :: ts) = s ++ sep ++ joinWith sep (t :: ts)
              from rfl]
          rw [countChar_append, countChar_append, hsep, ih]
          simp

theorem countChar_fragment (fr : WFragment) (h : '?' ∉ (fragmentCol fr).data) :
    countChar '?' (fragmentSql fr) = (fragmentValues fr).length := by
  cases fr with
  | eq col v =>
      have h' : '?' ∉ col.data := h
      rw [fragmentSql, countChar_append, countChar_eq_zero _ _ h']
      exact (by decide : 0 + countChar '?' " = ?" = 1)
  | like col v =>
      have h' : '?' ∉ col.data := h
      rw [fragmentSql, countChar_append, countChar_eq_zero _ _ h']
      exact (by decide : 0 + countChar '?' " LIKE ?" = 1)
  | between col lo hi =>
      have h' : '?' ∉ col.data := h
      rw [fragmentSql, countChar_append, countChar_eq_zero _ _ h']
      exact (by decide : 0 + countChar '?' " BETWEEN ? AND ?" = 2)
  | inList col vs =>
      have h' : '?' ∉ col.data := h
      rw [fragmentSql, countChar_append, countChar_append, countChar_append,
        countChar_eq_zero _ _ h']
      have hjoin : countChar '?' (joinComma (vs.map (fun _ => "?"))) = vs.length := by
        rw [joinComma, countChar_joinWith _ _ (by decide)]
        clear h h'
        induction vs with
        | nil => rfl
        | cons v rest ih =>
            rw [List.map_cons, List.map_cons, List.sum_cons, ih,
              (by decide : countChar '?' "?" = 1), List.length_cons]
            omega
      rw [hjoin, (by decide : countChar '?' " IN (" = 0),
        (by decide : countChar '?' ")" = 0)]
      show 0 + 0 + vs.length + 0 = vs.length
      omega

/-- The modelled wrapper's rendered segment has exactly one placeholder
per bound scalar value (`in_` one per element, `between` two). -/
theorem wrapper_placeholder_count (w : Wrapper)
    (h : ∀ fr ∈ w.fragments, '?' ∉ (fragmentCol fr).data) :
    countChar '?' w.getSqlSegment = w.boundValues.length := by
  rw [Wrapper.getSqlSegment, Wrapper.boundValues,
    countChar_joinWith _ _ (by decide), List.length_flatMap, List.map_map]
  refine congrArg _ (List.map_congr_left ?_)
  intro fr hfr
  exact countChar_fragment fr (h fr hfr)

theorem execFirstInt_trace (sql : String) (be : Backend) :
    (execFirstInt sql be).2 = [.acquire, .exec sql .nil] := by
  unfold execFirstInt
  cases (be.query sql Params.nil).head? with
  | none => rfl
  | some r => cases h : rowToInt r <;> simp [h]

/-- C2 (amended): the wrapper-driven operations (`list`, `select_one`,
`count`, `remove`, `page`) embed the wrapper's rendered fragment into the
SQL text but execute every statement with an empty parameter list
(`Params::Nil`) — the wrapper's bound values are never passed as
parameters.  At the wrapper level, the rendered fragment's placeholder
count does equal the number of scalar values bound. -/
theorem c2_wrapper_values_never_bound :
    (∀ (table : TableName) (cols : List FieldMeta) (w : Wrapper) (be : Backend),
       ∀ p ∈ execEvents ((listOp table cols w be).2), p.2 = Params.nil)
    ∧ (∀ (table : TableName) (cols : List FieldMeta) (w : Wrapper) (be : Backend),
       ∀ p ∈ execEvents ((selectOneOp table cols w be).2), p.2 = Params.nil)
    ∧ (∀ (table : TableName) (w : Wrapper) (be : Backend),
       ∀ p ∈ execEvents ((countOp table w be).2), p.2 = Params.nil)
    ∧ (∀ (table : TableName) (w : Wrapper) (be : Backend),
       ∀ p ∈ execEvents ((removeOp table w be).2), p.2 = Params.nil)
    ∧ (∀ (table : TableName) (cols : List FieldMeta) (pnum psize : Nat)
         (w : Wrapper) (be : Backend),
       ∀ p ∈ execEvents ((pageOp table cols pnum psize w be).2), p.2 = Params.nil)
    ∧ (∀ w : Wrapper, (∀ fr ∈ w.fragments, '?' ∉ (fragmentCol fr).data) →
       countChar '?' w.getSqlSegment = w.boundValues.length) := by
  refine ⟨?_, ?_, ?_, ?_, ?_, fun w h => wrapper_placeholder_count w h⟩
  · intro table cols w be p hp
    by_cases hT : table.complete.isEmpty <;>
      simp [listOp, hT, execEvents] at hp
    simp [hp]
  · intro table cols w be p hp
    by_cases hT : table.complete.isEmpty <;>
      simp [selectOneOp, hT, execEvents] at hp
    simp [hp]
  · intro table w be p hp
    by_cases hT : table.complete.isEmpty
    · simp [countOp, hT, execEvents] at hp
    · rcases hEF : execFirstInt (countSql table w) be with ⟨res, tr⟩
      have htr : tr = [.acquire, .exec (countSql table w) .nil] :=
        (congrArg Prod.snd hEF).symm.trans (execFirstInt_trace _ _)
      subst htr
      simp only [countOp, hT, if_false, Bool.false_eq_true, hEF] at hp
      cases res <;> simp [execEvents] at hp <;> simp [hp]
  · intro table w be p hp
    by_cases hT : table.complete.isEmpty <;>
      simp [removeOp, hT, execEvents] at hp
    simp [hp]
  · intro table cols pnum psize w be p hp
    by_cases hT : table.complete.isEmpty
    · simp [pageOp, hT, execEvents] at hp
    · rcases hEF : execFirstInt (pageCountSql table w) be with ⟨res, tr⟩
      have htr : tr = [.acquire, .exec (pageCountSql table w) .nil] :=
        (congrArg Prod.snd hEF).symm.trans (execFirstInt_trace _ _)
      subst htr
      simp only [pageOp, hT, if_false, Bool.false_eq_true, hEF] at hp
      cases res with
      | error e => simp [execEvents] at hp; simp [hp]
      | ok c =>
          by_cases hpos : (⟨pnum, psize, intToUsize c, []⟩ : IPage Obj).total > 0
          · simp only [hpos, if_true] at hp
            simp [execEvents] at hp
            rcases hp with hp | hp <;> simp [hp]
          · simp only [hpos, if_false] at hp
            simp [execEvents] at hp
            simp [hp]

/-- The concrete wrapper of the counterexample: one `eq` predicate binding
one value. -/
def w0 : Wrapper := Wrapper.eqW Wrapper.new true "status" (.int 1)

/-- C2 counterexample: `list` on a wrapper binding one value executes with
`Params::Nil` — the bound value is not in the executed parameter list. -/
theorem c2_counterexample :
    w0.boundValues = [Value.int 1]
    ∧ (listOp table0 cols0 w0 be0).2
        = [.acquire, .exec (listSql table0 cols0 w0) Params.nil]
    ∧ Params.nil ≠ Params.vector w0.boundValues :=
  ⟨by decide, by simp [listOp, (by decide : table0.complete.isEmpty = false)],
   by decide⟩

/-- C2 witness: the amended theorem's placeholder-count part applied to
the concrete wrapper `w0`, and its execution part applied to `list`. -/
theorem c2_witness :
    (∀ fr ∈ w0.fragments, '?' ∉ (fragmentCol fr).data)
    ∧ countChar '?' w0.getSqlSegment = w0.boundValues.length
    ∧ (∀ p ∈ execEvents ((listOp table0 cols0 w0 be0).2), p.2 = Params.nil) :=
  ⟨by decide, c2_wrapper_values_never_bound.2.2.2.2.2 w0 (by decide),
   fun p hp => c2_wrapper_values_never_bound.1 table0 cols0 w0 be0 p hp⟩

/-! ## C3 — fill rules override instance values -/

/-- C3: on the insert path (`save`, `save_batch`) the value bound at each
field's position is the fill rule's resolved value whenever its trigger is
`"insert"` or `"default"`, and the instance's value otherwise; on the
update path (`update_by_id`) likewise with trigger `"update"` or
`"default"` over the existing plain fields; a field with no fill rule
always draws its value from the instance, and a firing fill rule never
uses the instance value. -/
theorem c3_fill_rules_override :
    (∀ (data : Obj) (cols : List FieldMeta),
       insertValues data cols = cols.map (insertEffective data))
    ∧ (∀ (data : Obj) (cols : List FieldMeta),
       updatePlainValues data cols = (cols.filter keptB).map (updateEffective data))
    ∧ (∀ (cols : List FieldMeta) (entities : List Obj),
       saveBatchValues cols entities = entities.flatMap (fun e => insertValues e cols))
    ∧ (∀ (pf : Platform) (table : TableName) (cols : List FieldMeta) (data : Obj)
         (be : Backend),
       (saveOp pf table cols data be).2
         = [.acquire,
            .exec (buildInsertClause pf table cols 1) (.vector (insertValues data cols)),
            .exec (lastInsertSql pf) .nil]
       ∧ (saveBatchOp pf table cols [data] be).2
         = [.acquire,
            .exec (buildInsertClause pf table cols 1) (.vector (insertValues data cols))])
    ∧ (∀ (c : FieldMeta) (data : Obj), triggerMatches "insert" c = true →
        insertEffective data c = fillResolved c)
    ∧ (∀ (c : FieldMeta) (data : Obj), triggerMatches "update" c = true →
        updateEffective data c = fillResolved c)
    ∧ (∀ (c : FieldMeta) (data : Obj), c.fill = none →
        insertEffective data c = instanceValue data c
        ∧ updateEffective data c = instanceValue data c) := by
  refine ⟨insertValues_eq_map, updatePlainValues_eq_map, ?_, ?_, ?_, ?_, ?_⟩
  · intro cols entities
    induction entities with
    | nil => rfl
    | cons e rest ih => rw [saveBatchValues, ih, List.flatMap_cons]
  · intro pf table cols data be
    exact ⟨rfl, by simp [saveBatchOp, saveBatchValues]⟩
  · intro c data h
    rw [insertEffective, if_pos h]
  · intro c data h
    rw [updateEffective, if_pos h]
  · intro c data h
    constructor
    · rw [insertEffective, if_neg (by simp [triggerMatches, h])]
    · rw [updateEffective, if_neg (by simp [triggerMatches, h])]

/-- A plain column carrying an insert-triggered fill rule. -/
def colF : FieldMeta := ⟨"f", true, .tableField, some ⟨"insert", some (.text "filled")⟩⟩

/-- A descriptor containing the filled column and a plain one. -/
def cols1 : List FieldMeta := [colF, colA]

/-- An entity whose instance value for the filled column is non-nil. -/
def data1 : Obj := [("f", .text "orig"), ("a", .text "x")]

/-- C3 witness: the fill rule of `colF` fires on insert and overrides the
non-nil instance value `"orig"` with `"filled"`; the plain column `a`
draws `"x"` from the instance. -/
theorem c3_witness :
    (triggerMatches "insert" colF = true)
    ∧ insertEffective data1 colF = fillResolved colF
    ∧ insertValues data1 cols1 = cols1.map (insertEffective data1)
    ∧ insertValues data1 cols1 = [.text "filled", .text "x"]
    ∧ (colA.fill = none ∧ insertEffective data1 colA = instanceValue data1 colA) :=
  ⟨by decide,
   c3_fill_rules_override.2.2.2.2.1 colF data1 (by decide),
   c3_fill_rules_override.1 data1 cols1,
   by decide,
   ⟨by decide, (c3_fill_rules_override.2.2.2.2.2.2 colA data1 (by decide)).1⟩⟩

/-! ## C4 — save_or_update branches on the identifier value -/

/-- C4: `save_or_update` resolves purely on the identifier's serialized
value: `Nil` takes the insert path — it becomes exactly a `save` call,
whose returned identifier is decoded from the follow-up last-insert-id
query; any non-Nil value takes `update_by_id` and, on success, returns
that same identifier value unchanged. -/
theorem c4_save_or_update_branches (pf : Platform) (table : TableName)
    (cols : List FieldMeta) (data : Obj) (be : Backend) :
    (resolvedId cols data = .nil →
       saveOrUpdateOp pf table cols data be = saveOp pf table cols data be
       ∧ (saveOrUpdateOp pf table cols data be).1
           = .ok ((be.query (lastInsertSql pf) Params.nil).head?.map idFromRow))
    ∧ (resolvedId cols data ≠ .nil →
       (∀ n tr, updateByIdOp pf table cols data be = (.ok n, tr) →
          saveOrUpdateOp pf table cols data be = (.ok (some (resolvedId cols data)), tr))
       ∧ (∀ e tr, updateByIdOp pf table cols data be = (.error e, tr) →
          saveOrUpdateOp pf table cols data be = (.error e, tr))) := by
  constructor
  · intro hnil
    have h1 : saveOrUpdateOp pf table cols data be = saveOp pf table cols data be := by
      rw [saveOrUpdateOp, hnil]
    exact ⟨h1, by rw [h1, saveOp]⟩
  · intro hnn
    have hbranch : saveOrUpdateOp pf table cols data be
        = match updateByIdOp pf table cols data be with
          | (.ok _, tr) => (.ok (some (resolvedId cols data)), tr)
          | (.error e, tr) => (.error e, tr) := by
      rw [saveOrUpdateOp]
      cases hid : resolvedId cols data with
      | nil => exact absurd hid hnn
      | bool b => rfl
      | int i => rfl
      | uint n => rfl
      | text s => rfl
    constructor
    · intro n tr hupd
      rw [hbranch, hupd]
    · intro e tr hupd
      rw [hbranch, hupd]

/-- A serialized entity whose identifier value is Nil. -/
def dataNil : Obj := [("id", .nil), ("a", .text "x"), ("b", .nil)]

/-- C4 witness: with the non-Nil identifier entity `data0`,
`save_or_update` performs `update_by_id` and returns the identifier
unchanged; with the Nil-identifier entity `dataNil` it equals `save`. -/
theorem c4_witness :
    (resolvedId cols0 data0 ≠ Value.nil
      ∧ saveOrUpdateOp .mysql table0 cols0 data0 be0
          = (.ok (some (resolvedId cols0 data0)),
             [.acquire, .exec (updateByIdSql .mysql table0 cols0 "id")
               (.vector (updatePlainValues data0 cols0 ++ [Value.uint 7]))]))
    ∧ (resolvedId cols0 dataNil = Value.nil
      ∧ saveOrUpdateOp .mysql table0 cols0 dataNil be0
          = saveOp .mysql table0 cols0 dataNil be0) :=
  ⟨⟨by decide,
    ((c4_save_or_update_branches .mysql table0 cols0 data0 be0).2 (by decide)).1
      be0.affected _ (by decide)⟩,
   ⟨by decide,
    ((c4_save_or_update_branches .mysql table0 cols0 dataNil be0).1 (by decide)).1⟩⟩

/-! ## C5 — page skips the row fetch when the count is zero -/

/-- C5: `page` issues the `COUNT` query first; when it yields zero, the
row-fetch query is never issued and the returned page is
`{total_count = 0, records = []}` — and in general the returned page's
records are empty whenever its total is zero. -/
theorem c5_page_zero_count (table : TableName) (cols : List FieldMeta)
    (pnum psize : Nat) (w : Wrapper) (be : Backend)
    (hT : table.complete.isEmpty = false)
    (h0 : (execFirstInt (pageCountSql table w) be).1 = .ok 0) :
    pageOp table cols pnum psize w be
        = (.ok ⟨pnum, psize, 0, []⟩,
           [.acquire, .exec (pageCountSql table w) Params.nil])
    ∧ (∀ (be' : Backend) (p : IPage Obj),
        (pageOp table cols pnum psize w be').1 = .ok p →
        p.total = 0 → p.records = []) := by
  constructor
  · rcases hEF : execFirstInt (pageCountSql table w) be with ⟨res, tr⟩
    have htr : tr = [.acquire, .exec (pageCountSql table w) .nil] :=
      (congrArg Prod.snd hEF).symm.trans (execFirstInt_trace _ _)
    have hres : res = .ok 0 := (congrArg Prod.fst hEF).symm.trans h0
    subst htr
    subst hres
    rw [pageOp]
    simp only [hT, Bool.false_eq_true, if_false, hEF]
    rw [show intToUsize 0 = 0 from by decide]
    rfl
  · intro be' p hok hp0
    revert hok
    by_cases hT' : table.complete.isEmpty
    · simp [pageOp, hT']
    · rcases hEF : execFirstInt (pageCountSql table w) be' with ⟨res, tr⟩
      simp only [pageOp, hT', Bool.false_eq_true, if_false, hEF]
      cases res with
      | error e => simp
      | ok c =>
          by_cases hpos : (⟨pnum, psize, intToUsize c, []⟩ : IPage Obj).total > 0
          · simp only [hpos, if_true]
            intro hok
            injection hok with h1
            exfalso
            rw [← h1] at hp0
            simp at hp0 hpos
            omega
          · simp only [hpos, if_false]
            intro hok
            injection hok with h1
            rw [← h1]

/-- A backend whose every query answers a single row with count 0. -/
def beZero : Backend := ⟨fun _ _ => [[("count", .int 0)]], 0⟩

/-- The empty wrapper used by the C5 witness. -/
def wEmpty : Wrapper := Wrapper.new

/-- C5 witness: against a backend counting zero rows, `page 1 10` returns
the empty page and only the `COUNT` query is in the trace. -/
theorem c5_witness :
    (table0.complete.isEmpty = false)
    ∧ ((execFirstInt (pageCountSql table0 wEmpty) beZero).1 = .ok 0)
    ∧ pageOp table0 cols0 1 10 wEmpty beZero
        = (.ok ⟨1, 10, 0, []⟩,
           [.acquire, .exec (pageCountSql table0 wEmpty) Params.nil]) :=
  ⟨by decide, by decide,
   (c5_page_zero_count table0 cols0 1 10 wEmpty beZero (by decide) (by decide)).1⟩

/-! ## C6 — remove_by_id(s) without an identifier field -/

/-- C6: on a descriptor lacking an identifier field, `remove_by_id` and
`remove_by_ids` both fail with the missing-identifier error after
acquiring a connection but before executing any SQL statement. -/
theorem c6_remove_missing_identifier (pf : Platform) (table : TableName)
    (cols : List FieldMeta) (idv : Value) (ids : List Value) (be : Backend)
    (hT : table.complete.isEmpty = false)
    (hno : cols.find? isId = none) :
    removeByIdOp pf table cols idv be
        = (.error (.missingIdent (msgMissingIdent table)), [.acquire])
    ∧ removeByIdsOp pf table cols ids be
        = (.error (.missingIdent (msgMissingIdent table)), [.acquire])
    ∧ execEvents ((removeByIdOp pf table cols idv be).2) = []
    ∧ execEvents ((removeByIdsOp pf table cols ids be).2) = [] := by
  have h1 : removeByIdOp pf table cols idv be
      = (.error (.missingIdent (msgMissingIdent table)), [.acquire]) := by
    simp [removeByIdOp, hT, hno]
  have h2 : removeByIdsOp pf table cols ids be
      = (.error (.missingIdent (msgMissingIdent table)), [.acquire]) := by
    simp [removeByIdsOp, hT, hno]
  exact ⟨h1, h2, by rw [h1]; rfl, by rw [h2]; rfl⟩

/-- A descriptor with plain fields only, no identifier. -/
def colsNoId : List FieldMeta := [colA, colB]

/-- C6 witness: the theorem applied to the identifier-less descriptor. -/
theorem c6_witness :
    (table0.complete.isEmpty = false)
    ∧ (colsNoId.find? isId = none)
    ∧ removeByIdOp .mysql table0 colsNoId (.uint 1) be0
        = (.error (.missingIdent (msgMissingIdent table0)), [.acquire])
    ∧ removeByIdsOp .mysql table0 colsNoId [.uint 1] be0
        = (.error (.missingIdent (msgMissingIdent table0)), [.acquire]) :=
  ⟨by decide, by decide,
   (c6_remove_missing_identifier .mysql table0 colsNoId (.uint 1) [.uint 1] be0
     (by decide) (by decide)).1,
   (c6_remove_missing_identifier .mysql table0 colsNoId (.uint 1) [.uint 1] be0
     (by decide) (by decide)).2.1⟩

/-! ## C7 — update_by_id with a Nil identifier value -/

/-- C7 (amended): `update_by_id` fails with the missing-identifier-value
error precisely when the entity's serialized object has no entry for the
identifier column; when the entry is present — even holding Nil — the
UPDATE is executed, with that (possibly Nil) identifier bound as the last
parameter. -/
theorem c7_update_by_id_nil_identifier (pf : Platform) (table : TableName)
    (cols : List FieldMeta) (f : FieldMeta) (data : Obj) (be : Backend)
    (hT : table.complete.isEmpty = false)
    (hfind : cols.find? isId = some f) :
    (getObjValue data f.name = none →
       updateByIdOp pf table cols data be
         = (.error (.missingIdent (msgMissingIdentValue table)), [.acquire]))
    ∧ (∀ v, getObjValue data f.name = some v →
       updateByIdOp pf table cols data be
         = (.ok be.affected,
            [.acquire, .exec (updateByIdSql pf table cols f.name)
              (.vector (updatePlainValues data cols ++ [v]))])) := by
  constructor
  · intro hnone
    simp [updateByIdOp, hT, hfind, hnone]
  · intro v hv
    simp [updateByIdOp, hT, hfind, hv]

/-- C7 counterexample: the entity `dataNil` holds Nil in its identifier
field, yet `update_by_id` succeeds and executes the UPDATE with Nil bound
as the last parameter, instead of failing with the missing-identifier-value
error before executing. -/
theorem c7_counterexample :
    getObjValue dataNil "id" = some Value.nil
    ∧ (updateByIdOp .mysql table0 cols0 dataNil be0).1 = .ok 0
    ∧ execEvents ((updateByIdOp .mysql table0 cols0 dataNil be0).2)
        = [(updateByIdSql .mysql table0 cols0 "id",
            .vector [.text "x", .nil, .nil])] := by
  decide

/-- An entity object lacking the identifier entry altogether. -/
def dataNoId : Obj := [("a", .text "x"), ("b", .nil)]

/-- C7 witness: the amended theorem applied to an object without the
identifier entry (error, no SQL) and to `dataNil` (UPDATE executed with
Nil bound last). -/
theorem c7_witness :
    (table0.complete.isEmpty = false)
    ∧ (cols0.find? isId = some colId)
    ∧ (getObjValue dataNoId "id" = none)
    ∧ updateByIdOp .mysql table0 cols0 dataNoId be0
        = (.error (.missingIdent (msgMissingIdentValue table0)), [.acquire])
    ∧ updateByIdOp .mysql table0 cols0 dataNil be0
        = (.ok be0.affected,
           [.acquire, .exec (updateByIdSql .mysql table0 cols0 colId.name)
             (.vector (updatePlainValues dataNil cols0 ++ [Value.nil]))]) :=
  ⟨by decide, by decide, by decide,
   (c7_update_by_id_nil_identifier .mysql table0 cols0 colId dataNoId be0
     (by decide) (by decide)).1 (by decide),
   (c7_update_by_id_nil_identifier .mysql table0 cols0 colId dataNil be0
     (by decide) (by decide)).2 Value.nil (by decide)⟩

/-! ## C8 — table-name validation coverage -/

/-- Whether a result is the `MissingTable` error. -/
def isMissingTable {α : Type} : Except AkitaError α → Bool
  | .error (.missingTable _) => true
  | _ => false

/-- C8 (amended): `list`, `select_one`, `select_by_id`, `page`, `count`,
`remove`, `remove_by_id`, `remove_by_ids`, `update` and `update_by_id`
validate the table name and fail with `MissingTable` (before acquiring a
connection or building SQL) when it is empty; `save`, `save_batch` and the
insert path of `save_or_update` perform no table-name validation and can
never return `MissingTable`. -/
theorem c8_missing_table_validation :
    (∀ (table : TableName) (cols : List FieldMeta) (w : Wrapper) (be : Backend),
       table.complete.isEmpty = true →
       listOp table cols w be = (.error (.missingTable msgMissingTable), [])
       ∧ selectOneOp table cols w be = (.error (.missingTable msgMissingTable), [])
       ∧ countOp table w be = (.error (.missingTable msgMissingTable), [])
       ∧ removeOp table w be = (.error (.missingTable msgMissingTable), []))
    ∧ (∀ (pf : Platform) (table : TableName) (cols : List FieldMeta)
         (pnum psize : Nat) (w : Wrapper) (idv : Value) (ids : List Value)
         (data : Obj) (be : Backend),
       table.complete.isEmpty = true →
       pageOp table cols pnum psize w be = (.error (.missingTable msgMissingTable), [])
       ∧ selectByIdOp pf table cols idv be = (.error (.missingTable msgMissingTable), [])
       ∧ removeByIdOp pf table cols idv be = (.error (.missingTable msgMissingTable), [])
       ∧ removeByIdsOp pf table cols ids be = (.error (.missingTable msgMissingTable), [])
       ∧ updateByIdOp pf table cols data be = (.error (.missingTable msgMissingTable), [])
       ∧ updateOp pf table cols data w be = (.error (.missingTable msgMissingTable), []))
    ∧ (∀ (pf : Platform) (table : TableName) (cols : List FieldMeta) (data : Obj)
         (entities : List Obj) (be : Backend),
       isMissingTable ((saveOp pf table cols data be).1) = false
       ∧ isMissingTable ((saveBatchOp pf table cols entities be).1) = false
       ∧ (resolvedId cols data = .nil →
          isMissingTable ((saveOrUpdateOp pf table cols data be).1) = false)) := by
  refine ⟨?_, ?_, ?_⟩
  · intro table cols w be hT
    exact ⟨by simp [listOp, hT], by simp [selectOneOp, hT],
      by simp [countOp, hT], by simp [removeOp, hT]⟩
  · intro pf table cols pnum psize w idv ids data be hT
    exact ⟨by simp [pageOp, hT], by simp [selectByIdOp, hT],
      by simp [removeByIdOp, hT], by simp [removeByIdsOp, hT],
      by simp [updateByIdOp, hT], by simp [updateOp, hT]⟩
  · intro pf table cols data entities be
    refine ⟨rfl, rfl, ?_⟩
    intro hnil
    rw [saveOrUpdateOp, hnil]
    rfl

/-- The empty table name. -/
def tableEmpty : TableName := ⟨"", ""⟩

/-- C8 counterexample: `save` on an empty table name does not fail with
`MissingTable` — it proceeds and succeeds, so the claimed validation is
absent from `save`. -/
theorem c8_counterexample :
    tableEmpty.complete.isEmpty = true
    ∧ (saveOp .mysql tableEmpty cols0 data0 be0).1 = .ok none
    ∧ isMissingTable ((saveOp .mysql tableEmpty cols0 data0 be0).1) = false := by
  decide

/-- C8 witness: the amended theorem applied to the empty table name. -/
theorem c8_witness :
    (tableEmpty.complete.isEmpty = true)
    ∧ listOp tableEmpty cols0 wEmpty be0
        = (.error (.missingTable msgMissingTable), [])
    ∧ selectByIdOp .mysql tableEmpty cols0 (.uint 1) be0
        = (.error (.missingTable msgMissingTable), [])
    ∧ updateByIdOp .mysql tableEmpty cols0 data0 be0
        = (.error (.missingTable msgMissingTable), [])
    ∧ updateOp .mysql tableEmpty cols0 data0 wEmpty be0
        = (.error (.missingTable msgMissingTable), [])
    ∧ isMissingTable ((saveOp .mysql tableEmpty cols0 data0 be0).1) = false
    ∧ (resolvedId cols0 dataNil = .nil
       ∧ isMissingTable ((saveOrUpdateOp .mysql tableEmpty cols0 dataNil be0).1) = false) :=
  ⟨by decide,
   (c8_missing_table_validation.1 tableEmpty cols0 wEmpty be0 (by decide)).1,
   (c8_missing_table_validation.2.1 .mysql tableEmpty cols0 1 10 wEmpty (.uint 1)
     [] data0 be0 (by decide)).2.1,
   (c8_missing_table_validation.2.1 .mysql tableEmpty cols0 1 10 wEmpty (.uint 1)
     [] data0 be0 (by decide)).2.2.2.2.1,
   (c8_missing_table_validation.2.1 .mysql tableEmpty cols0 1 10 wEmpty (.uint 1)
     [] data0 be0 (by decide)).2.2.2.2.2,
   (c8_missing_table_validation.2.2 .mysql tableEmpty cols0 data0 [] be0).1,
   ⟨by decide,
    (c8_missing_table_validation.2.2 .mysql tableEmpty cols0 dataNil [] be0).2.2
      (by decide)⟩⟩

/-! ## C9 — connections acquired per operation -/

/-- C9 (amended): after passing validation, `list`, `select_one`, `count`,
`remove`, `remove_by_id`, `remove_by_ids`, `update_by_id`, `save` and
`save_batch` acquire exactly one pooled connection per call; but `page`
acquires a second connection for the row-fetch query whenever the count is
positive, and `save_map` always acquires two (one inside
`build_insert_clause_map`, one to execute), so an operation is not limited
to one connection per call. -/
theorem c9_connection_acquisitions :
    (∀ (table : TableName) (cols : List FieldMeta) (w : Wrapper) (be : Backend),
       table.complete.isEmpty = false →
       acquireCount ((listOp table cols w be).2) = 1
       ∧ acquireCount ((selectOneOp table cols w be).2) = 1
       ∧ acquireCount ((countOp table w be).2) = 1
       ∧ acquireCount ((removeOp table w be).2) = 1)
    ∧ (∀ (pf : Platform) (table : TableName) (cols : List FieldMeta) (idv : Value)
         (ids : List Value) (data : Obj) (be : Backend),
       table.complete.isEmpty = false →
       acquireCount ((removeByIdOp pf table cols idv be).2) = 1
       ∧ acquireCount ((removeByIdsOp pf table cols ids be).2) = 1
       ∧ acquireCount ((updateByIdOp pf table cols data be).2) = 1)
    ∧ (∀ (pf : Platform) (table : TableName) (cols : List FieldMeta) (data : Obj)
         (entities : List Obj) (be : Backend),
       acquireCount ((saveOp pf table cols data be).2) = 1
       ∧ acquireCount ((saveBatchOp pf table cols entities be).2) = 1)
    ∧ (∀ (pf : Platform) (table : String) (data : Obj) (be : Backend),
       acquireCount ((saveMapOp pf table data be).2) = 2)
    ∧ (∀ (table : TableName) (cols : List FieldMeta) (pnum psize : Nat)
         (w : Wrapper) (be : Backend) (c : Int),
       table.complete.isEmpty = false →
       (execFirstInt (pageCountSql table w) be).1 = .ok c →
       (0 < intToUsize c →
          acquireCount ((pageOp table cols pnum psize w be).2) = 2)
       ∧ (intToUsize c = 0 →
          acquireCount ((pageOp table cols pnum psize w be).2) = 1)) := by
  refine ⟨?_, ?_, ?_, ?_, ?_⟩
  · intro table cols w be hT
    refine ⟨?_, ?_, ?_, ?_⟩
    · simp [listOp, hT, acquireCount]
    · simp [selectOneOp, hT, acquireCount]
    · rcases hEF : execFirstInt (countSql table w) be with ⟨res, tr⟩
      have htr : tr = [.acquire, .exec (countSql table w) .nil] :=
        (congrArg Prod.snd hEF).symm.trans (execFirstInt_trace _ _)
      subst htr
      simp only [countOp, hT, Bool.false_eq_true, if_false, hEF]
      cases res <;> simp [acquireCount]
    · simp [removeOp, hT, acquireCount]
  · intro pf table cols idv ids data be hT
    refine ⟨?_, ?_, ?_⟩
    · cases hf : cols.find? isId <;> simp [removeByIdOp, hT, hf, acquireCount]
    · cases hf : cols.find? isId <;> simp [removeByIdsOp, hT, hf, acquireCount]
    · cases hf : cols.find? isId with
      | none => simp [updateByIdOp, hT, hf, acquireCount]
      | some f =>
          cases hv : getObjValue data f.name <;>
            simp [updateByIdOp, hT, hf, hv, acquireCount]
  · intro pf table cols data entities be
    exact ⟨by simp [saveOp, acquireCount], by simp [saveBatchOp, acquireCount]⟩
  · intro pf table data be
    simp [saveMapOp, acquireCount]
  · intro table cols pnum psize w be c hT hc
    rcases hEF : execFirstInt (pageCountSql table w) be with ⟨res, tr⟩
    have htr : tr = [.acquire, .exec (pageCountSql table w) .nil] :=
      (congrArg Prod.snd hEF).symm.trans (execFirstInt_trace _ _)
    have hres : res = .ok c := (congrArg Prod.fst hEF).symm.trans hc
    subst htr
    subst hres
    constructor
    · intro hpos
      simp only [pageOp, hT, Bool.false_eq_true, if_false, hEF]
      rw [if_pos (by simpa using hpos)]
      simp [acquireCount]
    · intro hzero
      simp only [pageOp, hT, Bool.false_eq_true, if_false, hEF]
      rw [if_neg (by simp [hzero])]
      simp [acquireCount]

/-- C9 counterexample: `save_map` acquires two connections in a single
call — one inside `build_insert_clause_map` and one to execute — so not
every operation acquires exactly one connection. -/
theorem c9_counterexample :
    acquireCount ((saveMapOp .mysql "t" data0 be0).2) = 2 ∧ (2 : Nat) ≠ 1 := by
  decide

/-- A backend whose count queries answer 1. -/
def beOne : Backend := ⟨fun _ _ => [[("count", .int 1)]], 0⟩

/-- C9 witness: one acquisition for a plain `list`; two for a `page` whose
count is positive. -/
theorem c9_witness :
    (table0.complete.isEmpty = false)
    ∧ acquireCount ((listOp table0 cols0 wEmpty be0).2) = 1
    ∧ ((execFirstInt (pageCountSql table0 wEmpty) beOne).1 = .ok 1)
    ∧ (0 < intToUsize 1)
    ∧ acquireCount ((pageOp table0 cols0 1 10 wEmpty beOne).2) = 2 :=
  ⟨by decide,
   (c9_connection_acquisitions.1 table0 cols0 wEmpty be0 (by decide)).1,
   by decide, by decide,
   ((c9_connection_acquisitions.2.2.2.2 table0 cols0 1 10 wEmpty beOne 1
     (by decide) (by decide)).1 (by decide))⟩

/-! ## C10 — remove_by_ids binds one joined parameter -/

/-- C10: for any id list, `remove_by_ids` renders exactly one placeholder
inside the `IN` group (for either dialect) and binds exactly one
parameter: the single text value joining the stringifications of all the
ids with commas — never one parameter per id. -/
theorem c10_remove_by_ids_single_param (pf : Platform) (table : TableName)
    (cols : List FieldMeta) (f : FieldMeta) (ids : List Value) (be : Backend)
    (hne : ids ≠ [])
    (hT : table.complete.isEmpty = false)
    (hfind : cols.find? isId = some f)
    (hq : '?' ∉ table.name.data) (hqf : '?' ∉ f.name.data)
    (hd : '$' ∉ table.name.data) (hdf : '$' ∉ f.name.data) :
    removeByIdsOp pf table cols ids be
        = (.ok be.affected,
           [.acquire, .exec (removeByIdsSql pf table cols f.name)
             (.vector [.text (joinWith "," (ids.map Value.toStr))])])
    ∧ countChar '?' (removeByIdsSql .mysql table cols f.name) = 1
    ∧ dollarPlaceholders (removeByIdsSql .sqlite table cols f.name)
        = [cols.length + 1] := by
  refine ⟨by simp [removeByIdsOp, hT, hfind], ?_, ?_⟩
  · show countChar '?' ("delete from " ++ table.name ++ " where `"
        ++ f.name ++ "` in (?)") = 1
    rw [countChar_append, countChar_append, countChar_append, countChar_append,
      countChar_eq_zero _ _ hq, countChar_eq_zero _ _ hqf,
      (by decide : countChar '?' "delete from " = 0),
      (by decide : countChar '?' " where `" = 0),
      (by decide : countChar '?' "` in (?)" = 1)]
  · show dollarPlaceholders ("delete from " ++ table.name ++ " where `"
        ++ f.name ++ "` in ($" ++ natStr (cols.length + 1) ++ ")") = _
    unfold dollarPlaceholders
    have hdata : ("delete from " ++ table.name ++ " where `"
          ++ f.name ++ "` in ($" ++ natStr (cols.length + 1) ++ ")").data
        = (("delete from ").data ++ (table.name.data ++ ((" where `").data
            ++ (f.name.data ++ ['`', ' ', 'i', 'n', ' ', '(']))))
          ++ '$' :: (natToChars (cols.length + 1) ++ [')']) := by
      simp [String.data_append, natStr]
    rw [hdata]
    rw [scanPh_placeholder _ _ [')'] (by
      intro ch hch
      rcases List.mem_append.mp hch with h1 | h1
      · intro he; subst he; exact absurd h1 (by decide)
      · rcases List.mem_append.mp h1 with h2 | h2
        · exact fun he => hd (he ▸ h2)
        · rcases List.mem_append.mp h2 with h3 | h3
          · intro he; subst he; exact absurd h3 (by decide)
          · rcases List.mem_append.mp h3 with h4 | h4
            · exact fun he => hdf (he ▸ h4)
            · intro he; subst he; exact absurd h4 (by decide))
      (by exact (by decide : (')').isDigit = false))]
    rfl

/-- C10 witness: two ids bind the single text parameter `"1,2"` with one
placeholder in either dialect. -/
theorem c10_witness :
    ([Value.uint 1, Value.uint 2] ≠ ([] : List Value))
    ∧ (cols0.find? isId = some colId)
    ∧ removeByIdsOp .mysql table0 cols0 [.uint 1, .uint 2] be0
        = (.ok be0.affected,
           [.acquire, .exec (removeByIdsSql .mysql table0 cols0 colId.name)
             (.vector [.text (joinWith ","
               ([Value.uint 1, Value.uint 2].map Value.toStr))])])
    ∧ joinWith "," ([Value.uint 1, Value.uint 2].map Value.toStr) = "1,2"
    ∧ countChar '?' (removeByIdsSql .mysql table0 cols0 colId.name) = 1
    ∧ dollarPlaceholders (removeByIdsSql .sqlite table0 cols0 colId.name)
        = [cols0.length + 1] :=
  ⟨by decide, by decide,
   (c10_remove_by_ids_single_param .mysql table0 cols0 colId
     [.uint 1, .uint 2] be0 (by decide) (by decide) (by decide)
     (by decide) (by decide) (by decide) (by decide)).1,
   by decide,
   (c10_remove_by_ids_single_param .mysql table0 cols0 colId
     [.uint 1, .uint 2] be0 (by decide) (by decide) (by decide)
     (by decide) (by decide) (by decide) (by decide)).2.1,
   (c10_remove_by_ids_single_param .mysql table0 cols0 colId
     [.uint 1, .uint 2] be0 (by decide) (by decide) (by decide)
     (by decide) (by decide) (by decide) (by decide)).2.2⟩

end Akita
